import Mathlib

/-!
# Verification of the mapray-js glTF asset-assembly pipeline

Shallow embedding of the glTF loader core of the repository:
the load Context state machine (pending-load counter, body-finished and
failure flags, settlement and post-load pipeline), the per-buffer endian
rewrite with its duplicate-swap bit vector, the accessor registration and
original-accessor deduplication, the image/texture dedup, the URI
resolver, the scene-index selection and the primitive builder's vertex
count.  Machine integers are modelled as `Nat`/`Int`; the raw byte blobs
are irrelevant to the verified properties and the endian rewrite is
tracked as the multiset of byte groups it swaps.
-/

namespace Mapray

/-- glTF accessor, as registered with the load `Context`
(`Accessor` keeps the original JSON index in `index`; `bufferIndex` is the
index of the buffer reached through `accessor.bufferView.buffer`). -/
structure Accessor where
  index : Nat
  bufferIndex : Nat
  viewByteOffset : Nat
  accByteOffset : Nat
  byteStride : Option Nat
  componentSize : Nat
  numComponents : Nat
  count : Nat
  deriving DecidableEq, Repr

/-- Element stride of an accessor: `byteStride` of its buffer view when
present, else the packed element size. -/
def effectiveStride (a : Accessor) : Nat :=
  match a.byteStride with
  | some s => s
  | none => a.componentSize * a.numComponents

/-- The byte groups addressed by an accessor, as pairs
`(start offset, component size)`: one group per component of each of the
`count` addressed elements. -/
def addressedGroups (a : Accessor) : List (Nat × Nat) :=
  (List.range a.count).flatMap (fun e =>
    (List.range a.numComponents).map (fun c =>
      (a.viewByteOffset + a.accByteOffset + e * effectiveStride a + c * a.componentSize,
       a.componentSize)))

/-- The bits of the duplicate-swap bit vector covering a group: bit `o / 2`
for a 2-byte group at offset `o`, bits `o / 2` and `o / 2 + 1` for a 4-byte
group. -/
def groupBits (g : Nat × Nat) : Finset Nat :=
  if g.2 = 4 then {g.1 / 2, g.1 / 2 + 1} else {g.1 / 2}

/-- The bytes covered by a group. -/
def groupBytes (g : Nat × Nat) : Finset Nat :=
  Finset.Ico g.1 (g.1 + g.2)

/-- State of one buffer's endian rewrite: the declared bit-vector size
(`ceil(byteLength / 2)` bits), the set bits, and the list of byte groups
swapped so far, in order. -/
structure RewriteState where
  size : Nat
  marks : Finset Nat
  swaps : List (Nat × Nat)
  deriving DecidableEq

/-- Modelled from the spec: one step of `Accessor#modifyByteOrder`
(the `Accessor` and `BitVector` sources are not under `src/`).  A 1-byte
component is untouched; otherwise the group's first bit is tested: an
already-marked group is skipped, an unmarked group is marked (both bits
for a 4-byte group) and swapped. -/
def swapStep (st : RewriteState) (g : Nat × Nat) : RewriteState :=
  if g.2 = 1 then st
  else if g.1 / 2 ∈ st.marks then st
  else { st with marks := st.marks ∪ groupBits g, swaps := st.swaps ++ [g] }

/-- Modelled from the spec: `Accessor#modifyByteOrder(modmap)` walks the
accessor's addressed elements and swaps component bytes, consulting the
shared bit vector (the `Accessor` source is not under `src/`). -/
def modifyByteOrder (st : RewriteState) (a : Accessor) : RewriteState :=
  (addressedGroups a).foldl swapStep st

/-- One step of `BufferEntry._getOriginalAccessors`: the JS `Map` keyed by
`accessor.index` keeps only the first accessor registered with each
original index, in insertion order. -/
def dedupStep (acc : List Accessor) (a : Accessor) : List Accessor :=
  if acc.any (fun b => b.index == a.index) then acc else acc ++ [a]

/-- `BufferEntry._getOriginalAccessors`: deduplicate a registration list by
original JSON index, keeping the first registered accessor of each index. -/
def getOriginalAccessors (l : List Accessor) : List Accessor :=
  l.foldl dedupStep []

/-- `BufferEntry`: the per-shared-buffer registration record. -/
structure BufferEntry where
  byteLength : Nat
  attrib_accessors : List Accessor
  index_accessors : List Accessor
  deriving DecidableEq, Repr

/-- `BufferEntry._getUnitedOriginalAccessors`. -/
def getUnitedOriginalAccessors (e : BufferEntry) : List Accessor :=
  getOriginalAccessors (e.attrib_accessors ++ e.index_accessors)

/-- `BufferEntry.rewriteByteOrder`: allocate a bit vector of
`ceil(byteLength / 2)` bits and run `modifyByteOrder` over the united
original accessors. -/
def rewriteByteOrder (e : BufferEntry) : RewriteState :=
  (getUnitedOriginalAccessors e).foldl modifyByteOrder
    { size := (e.byteLength + 1) / 2, marks := ∅, swaps := [] }

/-! ### Properties of the endian rewrite -/

/-- Groups produced by a well-formed accessor walk: untouched 1-byte
components, or 2/4-byte components starting at an even byte offset. -/
def GoodGroup (g : Nat × Nat) : Prop :=
  g.2 = 1 ∨ ((g.2 = 2 ∨ g.2 = 4) ∧ g.1 % 2 = 0)

instance (g : Nat × Nat) : Decidable (GoodGroup g) := by
  unfold GoodGroup; infer_instance

/-- Any two multi-byte groups of the collection overlap only if they are
the same group (same offset and same component size). -/
def SepGroups (U : List (Nat × Nat)) : Prop :=
  ∀ g ∈ U, ∀ h ∈ U, g.2 ≠ 1 → h.2 ≠ 1 → (groupBytes g ∩ groupBytes h).Nonempty → g = h

instance (U : List (Nat × Nat)) : Decidable (SepGroups U) := by
  unfold SepGroups
  infer_instance

/-- Run the duplicate-swap discipline over a flat list of byte groups. -/
def processGroups (st : RewriteState) (gs : List (Nat × Nat)) : RewriteState :=
  gs.foldl swapStep st

/-- Invariant of the rewrite state: every recorded swap is a multi-byte
group of the collection, no group is recorded twice, and the set bits are
exactly the bits of the recorded groups. -/
def InvSt (U : List (Nat × Nat)) (st : RewriteState) : Prop :=
  (∀ g ∈ st.swaps, g ∈ U ∧ g.2 ≠ 1) ∧
  (∀ g, st.swaps.count g ≤ 1) ∧
  (∀ k, k ∈ st.marks ↔ ∃ g ∈ st.swaps, k ∈ groupBits g)

/-- `TextureInfo`: a reference from a material slot to a texture.
`texture` is the identity of the referenced `Texture` object (the post-load
pipeline re-points this field); `texCoord` stands for the remaining
per-info data, which the dedup must leave untouched. -/
structure TexInfo where
  texture : Nat
  texCoord : Nat
  deriving DecidableEq, Repr

/-- `ImageEntry`: the TextureInfo instances registered for one shared
image, in registration order. -/
structure ImageEntry where
  texinfo_objects : List TexInfo
  deriving DecidableEq, Repr

/-- `ImageEntry.rebuildTextureInfo`: when at least two TextureInfo
instances reference the image, re-point every later one at the texture of
the first registered one; otherwise change nothing. -/
def ImageEntry.rebuildTextureInfo (e : ImageEntry) : ImageEntry :=
  if e.texinfo_objects.length ≤ 1 then e
  else
    match e.texinfo_objects with
    | [] => e
    | t0 :: rest =>
      { e with texinfo_objects :=
          t0 :: rest.map (fun t => { t with texture := t0.texture }) }

/-- The load `Context`'s sparse buffer-entry array (`_buffer_entries`):
`none` is a hole of the JS sparse array. -/
structure ContextB where
  buffer_entries : List (Option BufferEntry)
  deriving DecidableEq, Repr

/-- `Context.addAccessor(accessor, usage)`: appends the accessor to the
attribute or index list of the entry of its buffer; a usage other than
"ATTRIBUTE" or "INDEX" falls through the switch.  Accessing a missing
entry's method would raise a TypeError, modelled as `Except.error`. -/
def ContextB.addAccessor (ctx : ContextB) (a : Accessor) (usage : String) :
    Except String ContextB :=
  let entry := ctx.buffer_entries.getD a.bufferIndex none
  match usage with
  | "ATTRIBUTE" =>
    match entry with
    | some e =>
      let e2 := { e with attrib_accessors := e.attrib_accessors ++ [a] }
      Except.ok { ctx with buffer_entries := ctx.buffer_entries.set a.bufferIndex (some e2) }
    | none => Except.error "TypeError"
  | "INDEX" =>
    match entry with
    | some e =>
      let e2 := { e with index_accessors := e.index_accessors ++ [a] }
      Except.ok { ctx with buffer_entries := ctx.buffer_entries.set a.bufferIndex (some e2) }
    | none => Except.error "TypeError"
  | _ => Except.ok ctx

/-! ### The Context settle state machine -/

/-- Observable actions of the settle phase: the three pipeline stages and
the one-shot promise resolution (`resolveContent` carries the `Content`
constructor arguments: the loaded scenes and the default scene index). -/
inductive LoadAction where
  | rewriteBuffers
  | splitBuffers
  | rebuildTexInfo
  | resolveContent (scenes : List Nat) (dsi : Int)
  | rejectError
  deriving DecidableEq, Repr

/-- The `Context` coordinator state plus the trace of settle actions. -/
structure CState where
  load_count : Nat
  body_finished : Bool
  load_failed : Bool
  scenes : List Nat
  dsi : Int
  trace : List LoadAction
  deriving DecidableEq, Repr

/-- `Context._onFinishLoadSomething`: when the body has finished and the
pending-load counter is zero, either run the three pipeline stages and
resolve with a `Content`, or reject with the aggregate failure. -/
def onFinishLoadSomething (s : CState) : CState :=
  if s.body_finished = true ∧ s.load_count = 0 then
    if s.load_failed = false then
      { s with trace := s.trace ++
          [LoadAction.rewriteBuffers, LoadAction.splitBuffers,
           LoadAction.rebuildTexInfo, LoadAction.resolveContent s.scenes s.dsi] }
    else
      { s with trace := s.trace ++ [LoadAction.rejectError] }
  else s

/-- `Context.onFinishLoadBuffer(failed)`. -/
def onFinishLoadBuffer (failed : Bool) (s : CState) : CState :=
  let s1 := if failed = true then { s with load_failed := true } else s
  onFinishLoadSomething { s1 with load_count := s1.load_count - 1 }

/-- `Context.onFinishLoadImage(failed)`. -/
def onFinishLoadImage (failed : Bool) (s : CState) : CState :=
  let s1 := if failed = true then { s with load_failed := true } else s
  onFinishLoadSomething { s1 with load_count := s1.load_count - 1 }

/-- `Context._onFinishLoadBody`. -/
def onFinishLoadBody (s : CState) : CState :=
  onFinishLoadSomething { s with body_finished := true }

/-- A fetch completion: a buffer or an image finished loading, with its
failure flag. -/
inductive FetchEvent where
  | buffer (failed : Bool)
  | image (failed : Bool)
  deriving DecidableEq, Repr

/-- The failure flag of a completion. -/
def FetchEvent.failed : FetchEvent → Bool
  | .buffer f => f
  | .image f => f

/-- Dispatch a completion to its handler. -/
def stepEvent (s : CState) : FetchEvent → CState
  | .buffer f => onFinishLoadBuffer f s
  | .image f => onFinishLoadImage f s

/-- Context state at the end of the synchronous body parse: `n` fetches
were started (`onStartLoadBuffer` / `onStartLoadImage` each incremented
the counter), none has completed yet. -/
def initLoadState (scenes : List Nat) (dsi : Int) (n : Nat) : CState :=
  { load_count := n, body_finished := false, load_failed := false,
    scenes := scenes, dsi := dsi, trace := [] }

/-- One complete load: the synchronous body parse starts all fetches and
ends with `_onFinishLoadBody`; the asynchronous completions then arrive in
an arbitrary order (`events`), each one going through its finish handler. -/
def runLoad (scenes : List Nat) (dsi : Int) (events : List FetchEvent) : CState :=
  events.foldl stepEvent (onFinishLoadBody (initLoadState scenes dsi events.length))

/-! ### The promise-based `Context.load` entry point -/

/-- Value of a run of digits (JS `Number` on the captured group). -/
def digitsVal (l : List Char) : Nat :=
  l.foldl (fun n c => 10 * n + (c.toNat - Char.toNat '0')) 0

/-- The regex `^(\d+)\.(\d+)` of `_loadVersion` / `_load_version`:
greedy leading digits, a dot, then digits; `none` when it does not match
(in the source `exec` then returns `null` and indexing it throws). -/
def parseMajorMinor (l : List Char) : Option (Nat × Nat) :=
  let ds1 := l.takeWhile Char.isDigit
  let rest1 := l.dropWhile Char.isDigit
  if ds1 = [] then none
  else
    match rest1 with
    | '.' :: rest2 =>
      let ds2 := rest2.takeWhile Char.isDigit
      if ds2 = [] then none else some (digitsVal ds1, digitsVal ds2)
    | _ => none

/-- The fields of the glTF body that `Context.load` reads: `asset.version`
(`none` when the asset or version is missing), the scenes array (each
scene abstracted to an opaque payload), and the optional default scene
index. -/
structure GBody where
  version : Option (List Char)
  scenes : List Nat
  scene : Option Int
  deriving DecidableEq, Repr

/-- A settle attempt on the load promise: only the first attempt wins. -/
inductive SettleAttempt where
  | rejectVersionError
  | throwTypeError
  | resolveContent (scenes : List Nat) (dsi : Int)
  deriving DecidableEq, Repr

/-- `Context.load()` of the promise-based loader (the `Tool.load` path),
restricted to bodies that reference no external buffers or images (so the
pending-load counter stays zero).  Returns the promise settle attempts in
order together with the number of `Scene` objects `_loadScenes`
constructed.  Note the source does not return after rejecting on a major
version below 2: it goes on to `_loadScenes`, `_loadDefaultSceneIndex` and
`_onFinishLoadBody`. -/
def contextLoad (g : GBody) : List SettleAttempt × Nat :=
  match g.version with
  | none => ([SettleAttempt.throwTypeError], 0)
  | some v =>
    match parseMajorMinor v with
    | none => ([SettleAttempt.throwTypeError], 0)
    | some mm =>
      let rejects := if mm.1 < 2 then [SettleAttempt.rejectVersionError] else []
      let parsed := g.scenes.length
      let dsi : Int := match g.scene with | some s => s | none => -1
      (rejects ++ [SettleAttempt.resolveContent g.scenes dsi], parsed)

/-! ### Scene selection, URI resolution, vertex count -/

/-- `glTFLoader._load_scene`: the effective index is `opts.index` when
defined, else the body's `scene` when defined, else 0; out of range is an
error, otherwise the scene at that index is returned. -/
def load_scene (scenes : List Nat) (gscene : Option Int) (optsIndex : Option Int) :
    Except String Nat :=
  let idx : Int :=
    match optsIndex with
    | some i => i
    | none =>
      match gscene with
      | some s => s
      | none => 0
  if h : 0 ≤ idx ∧ idx < (scenes.length : Int) then
    Except.ok (scenes.get ⟨idx.toNat, by omega⟩)
  else
    Except.error "glTF scene does not exist"

/-- `[a-z]` of the absolute-URI regex. -/
def isLowerAlpha (c : Char) : Bool :=
  decide ('a' ≤ c) && decide (c ≤ 'z')

/-- The character class `[-+.0-9a-z]` of the absolute-URI regex. -/
def isSchemeChar (c : Char) : Bool :=
  c == '-' || c == '+' || c == '.' ||
  (decide ('0' ≤ c) && decide (c ≤ '9')) || (decide ('a' ≤ c) && decide (c ≤ 'z'))

/-- The regex `^data:`. -/
def matchDataUri (l : List Char) : Bool :=
  List.isPrefixOf ['d', 'a', 't', 'a', ':'] l

/-- Whether the list starts with `//`. -/
def isSlashSlash (l : List Char) : Bool :=
  match l with
  | c1 :: c2 :: _ => c1 == '/' && c2 == '/'
  | _ => false

/-- Tail of the regex `^[a-z][-+.0-9a-z]*://` after the first character:
consume scheme characters until a `:`, which must be followed by `//`
(`:` is not in the scheme class, so the star is deterministic). -/
def matchSchemeTail (l : List Char) : Bool :=
  match l with
  | [] => false
  | c :: rest =>
    if c == ':' then isSlashSlash rest
    else isSchemeChar c && matchSchemeTail rest

/-- The regex `^[a-z][-+.0-9a-z]*://`. -/
def matchAbsUri (l : List Char) : Bool :=
  match l with
  | [] => false
  | c :: rest => isLowerAlpha c && matchSchemeTail rest

/-- `base_uri.substr(0, base_uri.lastIndexOf('/') + 1)`, and `""` when the
base URI contains no `/`. -/
def keepThroughLastSlash (l : List Char) : List Char :=
  (l.reverse.dropWhile (fun c => !(c == '/'))).reverse

/-- `Context.solveResourceUri(uri)`: data and absolute URIs pass through;
any other URI is appended to the base URI truncated just after its last
slash. -/
def solveResourceUri (base uri : List Char) : List Char :=
  if matchDataUri uri || matchAbsUri uri then uri
  else keepThroughLastSlash base ++ uri

/-- A glTF primitive as the `Builder` sees it: the attribute map in
property-iteration order, and the draw mode. -/
structure GPrim where
  attributes : List (String × Accessor)
  mode : Nat
  deriving DecidableEq, Repr

/-- A vertex count as a JS number: a natural number or `Infinity` (`⊤`). -/
def natTop (n : Nat) : WithTop Nat := (n : WithTop Nat)

/-- `Builder._calcNumVertices`: `Math.min` over the `count` of every
attribute accessor; JS `Math.min` of no arguments is `Infinity`, modelled
as `⊤`. -/
def calcNumVertices (iprim : GPrim) : WithTop Nat :=
  (iprim.attributes.map (fun kv => natTop kv.2.count)).foldl min ⊤

/-- `Builder._convertPrimitiveMode`: the `_DrawMode` table maps keys 0..6;
any other mode misses the table (`undefined`). -/
def convertPrimitiveMode (iprim : GPrim) : Option Nat :=
  if iprim.mode ≤ 6 then some iprim.mode else none

/-- The arguments `Builder._createMesh` passes to `Mesh.Initializer`. -/
structure MeshInit where
  drawMode : Option Nat
  numVertices : WithTop Nat
  deriving DecidableEq

/-- `new Mesh.Initializer(Builder._convertPrimitiveMode(iprim),
Builder._calcNumVertices(iprim))`. -/
def createMeshInit (iprim : GPrim) : MeshInit :=
  { drawMode := convertPrimitiveMode iprim, numVertices := calcNumVertices iprim }

/-- The effective scene index as the specification words it: `opts.index`
when present, else the body's `scene` when present, else 0. -/
def effectiveSceneIndex (gscene optsIndex : Option Int) : Int :=
  match optsIndex with
  | some i => i
  | none =>
    match gscene with
    | some s => s
    | none => 0

/-- Sample 16-bit scalar accessor, original index 0, two elements. -/
def accSample16 : Accessor :=
  { index := 0, bufferIndex := 0, viewByteOffset := 0, accByteOffset := 0,
    byteStride := none, componentSize := 2, numComponents := 1, count := 2 }

/-- Sample 16-bit scalar accessor, original index 1, one element. -/
def accSample16b : Accessor :=
  { index := 1, bufferIndex := 0, viewByteOffset := 0, accByteOffset := 0,
    byteStride := none, componentSize := 2, numComponents := 1, count := 1 }

/-- Sample buffer entry whose accessors overlap only on identical groups. -/
def entrySample : BufferEntry :=
  { byteLength := 4, attrib_accessors := [accSample16],
    index_accessors := [accSample16b] }

/-! ### Properties of the original-accessor deduplication -/

lemma subset_dedupStep (acc : List Accessor) (a : Accessor) :
    ∀ x ∈ acc, x ∈ dedupStep acc a := by
  intro x hx
  unfold dedupStep
  split
  · exact hx
  · exact List.mem_append_left _ hx

lemma self_index_dedupStep (acc : List Accessor) (a : Accessor) :
    ∃ b ∈ dedupStep acc a, b.index = a.index := by
  unfold dedupStep
  split
  · rename_i h
    simp only [List.any_eq_true, beq_iff_eq] at h
    obtain ⟨c, hc, hca⟩ := h
    exact ⟨c, hc, hca⟩
  · exact ⟨a, by simp, rfl⟩

lemma mem_foldl_dedupStep_of_mem (l : List Accessor) :
    ∀ (acc : List Accessor), ∀ x ∈ acc, x ∈ l.foldl dedupStep acc := by
  induction l with
  | nil => intro acc x hx; simpa using hx
  | cons a t ih =>
    intro acc x hx
    rw [List.foldl_cons]
    exact ih _ x (subset_dedupStep acc a x hx)

lemma mem_of_mem_foldl_dedupStep (l : List Accessor) :
    ∀ (acc : List Accessor), ∀ x ∈ l.foldl dedupStep acc, x ∈ acc ∨ x ∈ l := by
  induction l with
  | nil => intro acc x hx; left; simpa using hx
  | cons a t ih =>
    intro acc x hx
    rw [List.foldl_cons] at hx
    rcases ih _ x hx with h | h
    · unfold dedupStep at h
      split at h
      · left; exact h
      · rcases List.mem_append.1 h with h' | h'
        · left; exact h'
        · right
          simp only [List.mem_singleton] at h'
          simp [h']
    · right; exact List.mem_cons_of_mem _ h

lemma nodup_foldl_dedupStep (l : List Accessor) :
    ∀ (acc : List Accessor), (acc.map Accessor.index).Nodup →
      ((l.foldl dedupStep acc).map Accessor.index).Nodup := by
  induction l with
  | nil => intro acc h; simpa using h
  | cons a t ih =>
    intro acc h
    rw [List.foldl_cons]
    apply ih
    unfold dedupStep
    split
    · exact h
    · rename_i hany
      rw [List.map_append]
      apply List.Nodup.append h (by simp)
      intro x hx hx'
      simp only [List.map_cons, List.map_nil, List.mem_singleton] at hx'
      subst hx'
      simp only [List.any_eq_true, beq_iff_eq, not_exists] at hany
      rcases List.mem_map.1 hx with ⟨b, hb, hbx⟩
      exact hany b ⟨hb, hbx⟩

lemma cover_foldl_dedupStep (l : List Accessor) :
    ∀ (acc : List Accessor), ∀ x ∈ l, ∃ b ∈ l.foldl dedupStep acc, b.index = x.index := by
  induction l with
  | nil => intro acc x hx; simp at hx
  | cons a t ih =>
    intro acc x hx
    rw [List.foldl_cons]
    rcases List.mem_cons.1 hx with rfl | hx'
    · obtain ⟨b, hb, hbi⟩ := self_index_dedupStep acc x
      exact ⟨b, mem_foldl_dedupStep_of_mem t _ b hb, hbi⟩
    · exact ih _ x hx'

lemma first_foldl_dedupStep (l : List Accessor) :
    ∀ (acc : List Accessor), ∀ b ∈ l.foldl dedupStep acc, b ∉ acc →
      (∀ c ∈ acc, c.index ≠ b.index) ∧
      l.find? (fun x => x.index == b.index) = some b := by
  induction l with
  | nil =>
    intro acc b hb hnb
    rw [List.foldl_nil] at hb
    exact absurd hb hnb
  | cons a t ih =>
    intro acc b hb hnb
    rw [List.foldl_cons] at hb
    by_cases hany : acc.any (fun x => x.index == a.index) = true
    · rw [dedupStep, if_pos hany] at hb
      obtain ⟨hidx, hfind⟩ := ih acc b hb hnb
      refine ⟨hidx, ?_⟩
      have hne : (a.index == b.index) = false := by
        simp only [List.any_eq_true, beq_iff_eq] at hany
        obtain ⟨c, hc, hca⟩ := hany
        simp only [beq_eq_false_iff_ne, ne_eq]
        rw [← hca]
        exact hidx c hc
      simp only [List.find?, hne, cond_false]
      exact hfind
    · rw [dedupStep, if_neg hany] at hb
      by_cases hba : b = a
      · subst hba
        constructor
        · intro c hc hcb
          simp only [List.any_eq_true, beq_iff_eq, not_exists] at hany
          exact hany c ⟨hc, hcb⟩
        · have htrue : (b.index == b.index) = true := by simp
          simp only [List.find?, htrue, cond_true]
      · have hnb' : b ∉ acc ++ [a] := by
          intro hmem
          rcases List.mem_append.1 hmem with h | h
          · exact hnb h
          · simp only [List.mem_singleton] at h
            exact hba h
        obtain ⟨hidx, hfind⟩ := ih _ b hb hnb'
        refine ⟨fun c hc => hidx c (List.mem_append_left _ hc), ?_⟩
        have hne : (a.index == b.index) = false := by
          simp only [beq_eq_false_iff_ne, ne_eq]
          exact hidx a (by simp)
        simp only [List.find?, hne, cond_false]
        exact hfind

lemma getOriginalAccessors_nodup (l : List Accessor) :
    ((getOriginalAccessors l).map Accessor.index).Nodup :=
  nodup_foldl_dedupStep l [] (by simp)

lemma getOriginalAccessors_subset (l : List Accessor) :
    ∀ x ∈ getOriginalAccessors l, x ∈ l := by
  intro x hx
  rcases mem_of_mem_foldl_dedupStep l [] x hx with h | h
  · simp at h
  · exact h

lemma getOriginalAccessors_cover (l : List Accessor) :
    ∀ x ∈ l, ∃ b ∈ getOriginalAccessors l, b.index = x.index :=
  cover_foldl_dedupStep l []

lemma getOriginalAccessors_first (l : List Accessor) :
    ∀ b ∈ getOriginalAccessors l, l.find? (fun x => x.index == b.index) = some b :=
  fun b hb => (first_foldl_dedupStep l [] b hb (by simp)).2

/-! ### Lemmas for the endian rewrite -/

lemma self_mem_groupBits (g : Nat × Nat) : g.1 / 2 ∈ groupBits g := by
  unfold groupBits
  split <;> simp

lemma two_mul_mem_groupBytes (g : Nat × Nat) (hg : GoodGroup g) (h1 : g.2 ≠ 1) :
    ∀ k ∈ groupBits g, 2 * k ∈ groupBytes g := by
  intro k hk
  rcases hg with h | ⟨hs, he⟩
  · exact absurd h h1
  · unfold groupBits at hk
    unfold groupBytes
    rw [Finset.mem_Ico]
    rcases hs with h2 | h4
    · rw [if_neg (by omega)] at hk
      simp only [Finset.mem_singleton] at hk
      subst hk
      omega
    · rw [if_pos h4] at hk
      simp only [Finset.mem_insert, Finset.mem_singleton] at hk
      rcases hk with hk | hk <;> (subst hk; omega)

lemma swapStep_size (st : RewriteState) (g : Nat × Nat) :
    (swapStep st g).size = st.size := by
  unfold swapStep
  split
  · rfl
  · split <;> rfl

lemma processGroups_size (gs : List (Nat × Nat)) :
    ∀ st : RewriteState, (processGroups st gs).size = st.size := by
  induction gs with
  | nil => intro st; rfl
  | cons g t ih =>
    intro st
    show (processGroups (swapStep st g) t).size = st.size
    rw [ih, swapStep_size]

lemma processGroups_inv (gs : List (Nat × Nat)) :
    ∀ (st : RewriteState) (U : List (Nat × Nat)),
      (∀ g ∈ gs, g ∈ U) → (∀ g ∈ U, GoodGroup g) → SepGroups U → InvSt U st →
      InvSt U (processGroups st gs) ∧
      (∀ g ∈ st.swaps, g ∈ (processGroups st gs).swaps) ∧
      (∀ g ∈ gs, g.2 ≠ 1 → g ∈ (processGroups st gs).swaps) := by
  induction gs with
  | nil =>
    intro st U _ _ _ hinv
    exact ⟨hinv, fun g hg => hg, by simp⟩
  | cons g t ih =>
    intro st U hsub hgood hsep hinv
    have hgU : g ∈ U := hsub g (List.mem_cons_self g t)
    have hrest : ∀ x ∈ t, x ∈ U := fun x hx => hsub x (List.mem_cons_of_mem _ hx)
    have hstep : InvSt U (swapStep st g) ∧
        (∀ x ∈ st.swaps, x ∈ (swapStep st g).swaps) ∧
        (g.2 ≠ 1 → g ∈ (swapStep st g).swaps) := by
      unfold swapStep
      by_cases h1 : g.2 = 1
      · rw [if_pos h1]
        exact ⟨hinv, fun x hx => hx, fun hne => absurd h1 hne⟩
      · rw [if_neg h1]
        by_cases hm : g.1 / 2 ∈ st.marks
        · rw [if_pos hm]
          refine ⟨hinv, fun x hx => hx, fun hne => ?_⟩
          obtain ⟨h, hh, hhk⟩ := (hinv.2.2 (g.1 / 2)).1 hm
          obtain ⟨hhU, hh1⟩ := hinv.1 h hh
          have hover : (groupBytes g ∩ groupBytes h).Nonempty := by
            refine ⟨2 * (g.1 / 2), Finset.mem_inter.2 ⟨?_, ?_⟩⟩
            · exact two_mul_mem_groupBytes g (hgood g hgU) h1 _ (self_mem_groupBits g)
            · exact two_mul_mem_groupBytes h (hgood h hhU) hh1 _ hhk
          rw [hsep g hgU h hhU h1 hh1 hover]
          exact hh
        · rw [if_neg hm]
          have hgnotin : g ∉ st.swaps := by
            intro hgs
            exact hm ((hinv.2.2 (g.1 / 2)).2 ⟨g, hgs, self_mem_groupBits g⟩)
          refine ⟨⟨?_, ?_, ?_⟩, ?_, ?_⟩
          · intro x hx
            rcases List.mem_append.1 hx with hx' | hx'
            · exact hinv.1 x hx'
            · simp only [List.mem_singleton] at hx'
              subst hx'
              exact ⟨hgU, h1⟩
          · intro x
            rw [List.count_append]
            by_cases hxg : x = g
            · subst hxg
              rw [List.count_eq_zero.2 hgnotin]
              simp
            · have : List.count x [g] = 0 := by
                rw [List.count_eq_zero]
                simp [hxg]
              rw [this]
              simpa using hinv.2.1 x
          · intro k
            simp only [Finset.mem_union]
            constructor
            · rintro (hk | hk)
              · obtain ⟨h, hh, hhk⟩ := (hinv.2.2 k).1 hk
                exact ⟨h, List.mem_append_left _ hh, hhk⟩
              · exact ⟨g, List.mem_append_right _ (by simp), hk⟩
            · rintro ⟨h, hh, hhk⟩
              rcases List.mem_append.1 hh with hh' | hh'
              · exact Or.inl ((hinv.2.2 k).2 ⟨h, hh', hhk⟩)
              · simp only [List.mem_singleton] at hh'
                subst hh'
                exact Or.inr hhk
          · intro x hx
            exact List.mem_append_left _ hx
          · intro _
            exact List.mem_append_right _ (by simp)
    obtain ⟨hinv', hmono', hself'⟩ := hstep
    obtain ⟨hinv'', hmono'', hcover''⟩ := ih (swapStep st g) U hrest hgood hsep hinv'
    refine ⟨hinv'', fun x hx => hmono'' x (hmono' x hx), ?_⟩
    intro x hx hxne
    rcases List.mem_cons.1 hx with rfl | hx'
    · exact hmono'' x (hself' hxne)
    · exact hcover'' x hx' hxne

lemma foldl_modifyByteOrder_eq (as : List Accessor) :
    ∀ st : RewriteState,
      as.foldl modifyByteOrder st = processGroups st (as.flatMap addressedGroups) := by
  induction as with
  | nil => intro st; rfl
  | cons a t ih =>
    intro st
    rw [List.foldl_cons, List.flatMap_cons, ih]
    unfold processGroups modifyByteOrder
    rw [List.foldl_append]

lemma mem_getOriginalAccessors_of_inj (l : List Accessor)
    (hinj : ∀ a ∈ l, ∀ b ∈ l, a.index = b.index → a = b) :
    ∀ a ∈ l, a ∈ getOriginalAccessors l := by
  intro a ha
  obtain ⟨b, hb, hbi⟩ := getOriginalAccessors_cover l a ha
  have hba : b = a := hinj b (getOriginalAccessors_subset l b hb) a ha hbi
  exact hba ▸ hb

/-! ### Lemmas for the settle state machine -/

lemma onFinishLoadBuffer_eq (f : Bool) (s : CState) :
    onFinishLoadBuffer f s =
      onFinishLoadSomething
        { s with load_failed := s.load_failed || f, load_count := s.load_count - 1 } := by
  unfold onFinishLoadBuffer
  cases f <;> simp

lemma onFinishLoadImage_eq (f : Bool) (s : CState) :
    onFinishLoadImage f s =
      onFinishLoadSomething
        { s with load_failed := s.load_failed || f, load_count := s.load_count - 1 } := by
  unfold onFinishLoadImage
  cases f <;> simp

lemma stepEvent_eq (s : CState) (e : FetchEvent) :
    stepEvent s e =
      onFinishLoadSomething
        { s with load_failed := s.load_failed || e.failed,
                 load_count := s.load_count - 1 } := by
  cases e <;>
    simp [stepEvent, FetchEvent.failed, onFinishLoadBuffer_eq, onFinishLoadImage_eq]

lemma onFinishLoadBody_pending (s : CState) (h : s.load_count ≠ 0) :
    onFinishLoadBody s = { s with body_finished := true } := by
  unfold onFinishLoadBody onFinishLoadSomething
  rw [if_neg]
  rintro ⟨_, h0⟩
  simp only at h0
  exact h h0

lemma runLoad_drain (events : List FetchEvent) :
    ∀ s : CState, s.body_finished = true → s.load_count = events.length → events ≠ [] →
      events.foldl stepEvent s =
        onFinishLoadSomething
          { s with load_count := 0,
                   load_failed := s.load_failed || events.any FetchEvent.failed } := by
  induction events with
  | nil => intro s _ _ hne; exact absurd rfl hne
  | cons e t ih =>
    intro s hb hc _
    have hc' : s.load_count = t.length + 1 := by simpa using hc
    rw [List.foldl_cons, stepEvent_eq]
    by_cases ht : t = []
    · subst ht
      rw [List.foldl_nil]
      have hc1 : s.load_count = 1 := by simpa using hc'
      simp [hc1]
    · have htpos : 0 < t.length := List.length_pos.2 ht
      have hid : onFinishLoadSomething
            { s with load_failed := s.load_failed || e.failed,
                     load_count := s.load_count - 1 } =
          { s with load_failed := s.load_failed || e.failed,
                   load_count := s.load_count - 1 } := by
        unfold onFinishLoadSomething
        rw [if_neg]
        rintro ⟨_, h0⟩
        simp only at h0
        omega
      rw [hid]
      rw [ih _ (by simpa using hb) (by simp [hc']) ht]
      simp [Bool.or_assoc]

/-! ### Lemmas for the image/texture dedup -/

lemma map_texCoord_update (l : List TexInfo) (v : Nat) :
    (l.map (fun t => { t with texture := v })).map TexInfo.texCoord =
      l.map TexInfo.texCoord := by
  induction l with
  | nil => rfl
  | cons x xs ih => simp [ih]

/-! ### Lemmas for the URI resolver -/

lemma matchDataUri_iff (l : List Char) :
    matchDataUri l = true ↔ ∃ t, l = 'd' :: 'a' :: 't' :: 'a' :: ':' :: t := by
  unfold matchDataUri
  rw [ List.isPrefixOf_iff_prefix]
  constructor
  · rintro ⟨t, ht⟩
    exact ⟨t, by rw [← ht]; rfl⟩
  · rintro ⟨t, rfl⟩
    exact ⟨t, rfl⟩

lemma isSlashSlash_iff (l : List Char) :
    isSlashSlash l = true ↔ ∃ t, l = '/' :: '/' :: t := by
  cases l with
  | nil => simp [isSlashSlash]
  | cons c1 r =>
    cases r with
    | nil => simp [isSlashSlash]
    | cons c2 t =>
      simp only [isSlashSlash, Bool.and_eq_true, beq_iff_eq]
      constructor
      · rintro ⟨rfl, rfl⟩
        exact ⟨t, rfl⟩
      · rintro ⟨t', ht⟩
        injection ht with h1 ht2
        injection ht2 with h2 _
        exact ⟨h1, h2⟩

lemma matchSchemeTail_iff (l : List Char) :
    matchSchemeTail l = true ↔
      ∃ run t, l = run ++ ':' :: '/' :: '/' :: t ∧ ∀ x ∈ run, isSchemeChar x = true := by
  induction l with
  | nil =>
    constructor
    · intro h
      simp [matchSchemeTail] at h
    · rintro ⟨run, t, h, _⟩
      exact absurd h (by simp)
  | cons c rest ih =>
    constructor
    · intro h
      unfold matchSchemeTail at h
      by_cases hc : (c == ':') = true
      · rw [if_pos hc] at h
        obtain ⟨t, ht⟩ := (isSlashSlash_iff rest).1 h
        have hcc : c = ':' := by simpa using hc
        exact ⟨[], t, by simp [hcc, ht], by simp⟩
      · rw [if_neg hc] at h
        rw [Bool.and_eq_true] at h
        obtain ⟨h1, h2⟩ := h
        obtain ⟨run, t, hr, hall⟩ := ih.1 h2
        refine ⟨c :: run, t, by simp [hr], ?_⟩
        intro x hx
        rcases List.mem_cons.1 hx with rfl | hx'
        · exact h1
        · exact hall x hx'
    · rintro ⟨run, t, hr, hall⟩
      cases run with
      | nil =>
        simp only [List.nil_append] at hr
        injection hr with h1 h2
        subst h1
        unfold matchSchemeTail
        rw [if_pos (by simp)]
        rw [isSlashSlash_iff]
        exact ⟨t, h2⟩
      | cons r0 rs =>
        simp only [List.cons_append] at hr
        injection hr with h1 h2
        subst h1
        have hc : isSchemeChar c = true := hall c (by simp)
        have hcne : ¬(c == ':') = true := by
          intro hcc
          have hcc' : c = ':' := by simpa using hcc
          rw [hcc'] at hc
          exact absurd hc (by decide)
        unfold matchSchemeTail
        rw [if_neg hcne, Bool.and_eq_true]
        refine ⟨hc, ih.2 ⟨rs, t, h2, ?_⟩⟩
        intro x hx
        exact hall x (List.mem_cons_of_mem _ hx)

lemma matchAbsUri_iff (l : List Char) :
    matchAbsUri l = true ↔
      ∃ c run t, l = c :: (run ++ ':' :: '/' :: '/' :: t) ∧ isLowerAlpha c = true ∧
        ∀ x ∈ run, isSchemeChar x = true := by
  cases l with
  | nil =>
    constructor
    · intro h
      simp [matchAbsUri] at h
    · rintro ⟨c, run, t, h, _, _⟩
      exact absurd h (by simp)
  | cons c rest =>
    unfold matchAbsUri
    rw [Bool.and_eq_true, matchSchemeTail_iff]
    constructor
    · rintro ⟨h1, run, t, hr, hall⟩
      exact ⟨c, run, t, by rw [hr], h1, hall⟩
    · rintro ⟨c', run, t, heq, h1, hall⟩
      injection heq with hcc hrr
      subst hcc
      exact ⟨h1, run, t, hrr, hall⟩

lemma head_dropWhile_false (p : Char → Bool) (l : List Char) (c : Char) (t : List Char)
    (h : l.dropWhile p = c :: t) : p c = false := by
  induction l with
  | nil => simp at h
  | cons a r ih =>
    rw [List.dropWhile_cons] at h
    by_cases hp : p a = true
    · rw [if_pos hp] at h
      exact ih h
    · rw [if_neg hp] at h
      injection h with h1 _
      subst h1
      simpa using hp

lemma keepThroughLastSlash_spec (l : List Char) :
    ∃ t, l = keepThroughLastSlash l ++ t ∧ (∀ x ∈ t, x ≠ '/') ∧
      (keepThroughLastSlash l = [] ∨ (keepThroughLastSlash l).getLast? = some '/') := by
  unfold keepThroughLastSlash
  refine ⟨(l.reverse.takeWhile (fun c => !(c == '/'))).reverse, ?_, ?_, ?_⟩
  · have hsplit :
        (l.reverse.takeWhile (fun c => !(c == '/')) ++
          l.reverse.dropWhile (fun c => !(c == '/'))).reverse = l := by
      rw [List.takeWhile_append_dropWhile, List.reverse_reverse]
    conv_lhs => rw [← hsplit]
    rw [List.reverse_append]
  · intro x hx
    rw [List.mem_reverse] at hx
    have hpx := List.mem_takeWhile_imp hx
    simpa using hpx
  · rcases heq : l.reverse.dropWhile (fun c => !(c == '/')) with _ | ⟨h0, hs⟩
    · left
      rfl
    · right
      have hp := head_dropWhile_false (fun c => !(c == '/')) l.reverse h0 hs heq
      have h0eq : h0 = '/' := by simpa using hp
      rw [List.getLast?_reverse]
      simp [h0eq]

/-! ### Lemmas for the vertex count -/

lemma foldl_min_top_eq (l : List Nat) :
    ∀ a : WithTop Nat, (l.map natTop).foldl min a =
      min a ((l.map natTop).foldr min ⊤) := by
  induction l with
  | nil => intro a; simp
  | cons n t ih =>
    intro a
    simp only [List.map_cons, List.foldl_cons, List.foldr_cons]
    rw [ih, ← min_assoc]

lemma foldr_min_spec (l : List Nat) :
    l ≠ [] →
    ∃ m : Nat, (l.map natTop).foldr min ⊤ = natTop m ∧
      m ∈ l ∧ ∀ c ∈ l, m ≤ c := by
  induction l with
  | nil => intro hne; exact absurd rfl hne
  | cons n t ih =>
    intro _
    by_cases ht : t = []
    · subst ht
      exact ⟨n, by simp, by simp, by simp⟩
    · obtain ⟨m, hm, hmem, hmin⟩ := ih ht
      simp only [List.map_cons, List.foldr_cons]
      rw [hm]
      refine ⟨min n m, ?_, ?_, ?_⟩
      · show min (natTop n) (natTop m) = natTop (min n m)
        unfold natTop
        exact (WithTop.coe_min n m).symm
      · rcases le_total n m with h | h
        · rw [min_eq_left h]
          exact List.mem_cons_self n t
        · rw [min_eq_right h]
          exact List.mem_cons_of_mem _ hmem
      · intro c hc
        rcases List.mem_cons.1 hc with rfl | hct
        · exact min_le_left _ _
        · exact le_trans (min_le_right _ _) (hmin c hct)

/-! ## Claim theorems -/

/-- C1: for every load in which at least one buffer or image fetch fails,
all outstanding fetches are still drained (the pending counter reaches 0),
and the settlement fires exactly once with the single aggregate rejection:
the trace is exactly `[rejectError]`, so no pipeline stage (endian rewrite,
buffer split, image dedup) runs and no `Content` is resolved, regardless of
how many other fetches succeeded. -/
theorem c1_failed_load_single_rejection (scenes : List Nat) (dsi : Int)
    (events : List FetchEvent) (hfail : events.any FetchEvent.failed = true) :
    (runLoad scenes dsi events).trace = [LoadAction.rejectError] ∧
    (runLoad scenes dsi events).load_count = 0 := by
  have hne : events ≠ [] := by
    intro h
    rw [h] at hfail
    simp at hfail
  have hlen0 : events.length ≠ 0 := fun h => hne (List.length_eq_zero.1 h)
  unfold runLoad
  rw [onFinishLoadBody_pending (initLoadState scenes dsi events.length)
    (by simpa [initLoadState] using hlen0)]
  have hdrain := runLoad_drain events
    { initLoadState scenes dsi events.length with body_finished := true } rfl rfl hne
  rw [hdrain]
  simp [onFinishLoadSomething, initLoadState, hfail]

/-- C1 witness: a two-fetch load where the buffer fetch fails and the image
fetch succeeds settles with exactly one rejection and a drained counter. -/
theorem c1_failed_load_single_rejection_witness :
    ([FetchEvent.buffer true, FetchEvent.image false].any FetchEvent.failed = true) ∧
    ((runLoad [3] 7 [FetchEvent.buffer true, FetchEvent.image false]).trace =
        [LoadAction.rejectError] ∧
      (runLoad [3] 7 [FetchEvent.buffer true, FetchEvent.image false]).load_count = 0) :=
  ⟨by decide,
   c1_failed_load_single_rejection [3] 7 [FetchEvent.buffer true, FetchEvent.image false]
     (by decide)⟩

/-- C2: for every successful load (no fetch failed), the settlement runs
exactly the three pipeline stages, in the order endian rewrite, then buffer
split and accessor rebuild, then image dedup, and only after them resolves
the promise with a `Content` built from the loaded scenes and the default
scene index; the pending counter is drained to 0. -/
theorem c2_pipeline_order_and_content (scenes : List Nat) (dsi : Int)
    (events : List FetchEvent) (hok : events.any FetchEvent.failed = false) :
    (runLoad scenes dsi events).trace =
      [LoadAction.rewriteBuffers, LoadAction.splitBuffers, LoadAction.rebuildTexInfo,
       LoadAction.resolveContent scenes dsi] ∧
    (runLoad scenes dsi events).load_count = 0 := by
  by_cases hne : events = []
  · subst hne
    simp [runLoad, onFinishLoadBody, onFinishLoadSomething, initLoadState]
  · have hlen0 : events.length ≠ 0 := fun h => hne (List.length_eq_zero.1 h)
    unfold runLoad
    rw [onFinishLoadBody_pending (initLoadState scenes dsi events.length)
      (by simpa [initLoadState] using hlen0)]
    have hdrain := runLoad_drain events
      { initLoadState scenes dsi events.length with body_finished := true } rfl rfl hne
    rw [hdrain]
    simp [onFinishLoadSomething, initLoadState, hok]

/-- C2 witness: a load with one successful buffer fetch runs the three
stages in order and then resolves the `Content`. -/
theorem c2_pipeline_order_and_content_witness :
    ([FetchEvent.buffer false].any FetchEvent.failed = false) ∧
    ((runLoad [4, 5] 1 [FetchEvent.buffer false]).trace =
        [LoadAction.rewriteBuffers, LoadAction.splitBuffers, LoadAction.rebuildTexInfo,
         LoadAction.resolveContent [4, 5] 1] ∧
      (runLoad [4, 5] 1 [FetchEvent.buffer false]).load_count = 0) :=
  ⟨by decide,
   c2_pipeline_order_and_content [4, 5] 1 [FetchEvent.buffer false] (by decide)⟩

/-- C3 (amended): after `BufferEntry.rewriteByteOrder`, provided accessors
registered under the same original index are the same accessor and any two
addressed multi-byte groups are byte-disjoint or identical (same offset
and same component size, offsets even), every multi-byte group addressed
by a registered accessor has been swapped exactly once; the rewrite uses a
single bit vector of `ceil(byteLength / 2)` bits shared by all accessors
and visits each distinct original accessor exactly once (deduplicated by
original index, keeping the first registered). -/
theorem c3_endian_rewrite_amended (e : BufferEntry)
    (hinj : ∀ a ∈ e.attrib_accessors ++ e.index_accessors,
      ∀ b ∈ e.attrib_accessors ++ e.index_accessors, a.index = b.index → a = b)
    (hgood : ∀ g ∈ (e.attrib_accessors ++ e.index_accessors).flatMap addressedGroups,
      GoodGroup g)
    (hsep : SepGroups ((e.attrib_accessors ++ e.index_accessors).flatMap addressedGroups)) :
    ((getUnitedOriginalAccessors e).map Accessor.index).Nodup ∧
    (∀ a ∈ e.attrib_accessors ++ e.index_accessors, a ∈ getUnitedOriginalAccessors e) ∧
    (∀ b ∈ getUnitedOriginalAccessors e,
      (e.attrib_accessors ++ e.index_accessors).find? (fun x => x.index == b.index) =
        some b) ∧
    (rewriteByteOrder e).size = (e.byteLength + 1) / 2 ∧
    (∀ a ∈ e.attrib_accessors ++ e.index_accessors, ∀ g ∈ addressedGroups a, g.2 ≠ 1 →
      (rewriteByteOrder e).swaps.count g = 1) := by
  have hrw : rewriteByteOrder e =
      processGroups { size := (e.byteLength + 1) / 2, marks := ∅, swaps := [] }
        ((getUnitedOriginalAccessors e).flatMap addressedGroups) :=
    foldl_modifyByteOrder_eq _ _
  have hsubU : ∀ g ∈ (getUnitedOriginalAccessors e).flatMap addressedGroups,
      g ∈ (e.attrib_accessors ++ e.index_accessors).flatMap addressedGroups := by
    intro g hg
    rw [List.mem_flatMap] at hg ⊢
    obtain ⟨a, ha, hga⟩ := hg
    exact ⟨a, getOriginalAccessors_subset _ a ha, hga⟩
  have hinit : InvSt ((e.attrib_accessors ++ e.index_accessors).flatMap addressedGroups)
      { size := (e.byteLength + 1) / 2, marks := ∅, swaps := [] } := by
    refine ⟨by simp, by simp, ?_⟩
    intro k
    simp
  obtain ⟨hinvF, _, hcovF⟩ := processGroups_inv
    ((getUnitedOriginalAccessors e).flatMap addressedGroups)
    { size := (e.byteLength + 1) / 2, marks := ∅, swaps := [] }
    ((e.attrib_accessors ++ e.index_accessors).flatMap addressedGroups)
    hsubU hgood hsep hinit
  refine ⟨getOriginalAccessors_nodup _, mem_getOriginalAccessors_of_inj _ hinj,
    getOriginalAccessors_first _, ?_, ?_⟩
  · rw [hrw, processGroups_size]
  · intro a ha g hg hgne
    have hmem : g ∈ (rewriteByteOrder e).swaps := by
      rw [hrw]
      apply hcovF
      · rw [List.mem_flatMap]
        exact ⟨a, mem_getOriginalAccessors_of_inj _ hinj a ha, hg⟩
      · exact hgne
    have hle : (rewriteByteOrder e).swaps.count g ≤ 1 := by
      rw [hrw]
      exact hinvF.2.1 g
    have hge : 0 < (rewriteByteOrder e).swaps.count g := List.count_pos_iff.2 hmem
    omega

/-- C3 counterexample: a 16-bit accessor (original index 0) and a 32-bit
accessor (original index 1) addressing overlapping bytes of the same
buffer: the 4-byte group at offset 0 is addressed by the 32-bit accessor
but is never swapped (its first bit was claimed by the 16-bit group), so
it is not "byte-swapped exactly once" as the claim states. -/
theorem c3_endian_rewrite_counterexample :
    ((0, 4) ∈ addressedGroups
      { index := 1, bufferIndex := 0, viewByteOffset := 0, accByteOffset := 0,
        byteStride := none, componentSize := 4, numComponents := 1, count := 1 }) ∧
    (rewriteByteOrder
      { byteLength := 4,
        attrib_accessors :=
          [{ index := 0, bufferIndex := 0, viewByteOffset := 0, accByteOffset := 0,
             byteStride := none, componentSize := 2, numComponents := 1, count := 1 }],
        index_accessors :=
          [{ index := 1, bufferIndex := 0, viewByteOffset := 0, accByteOffset := 0,
             byteStride := none, componentSize := 4, numComponents := 1, count := 1 }]
      }).swaps.count (0, 4) = 0 := by
  decide

/-- C3 witness: on a buffer whose two accessors overlap only on identical
2-byte groups, the separation hypotheses hold and the overlapped group is
swapped exactly once. -/
theorem c3_endian_rewrite_amended_witness :
    SepGroups ((entrySample.attrib_accessors ++ entrySample.index_accessors).flatMap
      addressedGroups) ∧
    (rewriteByteOrder entrySample).swaps.count (0, 2) = 1 :=
  ⟨by decide,
   (c3_endian_rewrite_amended entrySample (by decide) (by decide) (by decide)).2.2.2.2
     accSample16 (by decide) (0, 2) (by decide) (by decide)⟩

/-- C4: after `ImageEntry.rebuildTextureInfo`, every TextureInfo
registered for the image references the texture of the first registered
TextureInfo (so any image referenced by two or more of them has all of
them sharing that one texture), while the other TextureInfo data and the
list length are untouched; an image referenced by at most one TextureInfo
is not modified at all. -/
theorem c4_texture_dedup (e : ImageEntry) :
    (e.texinfo_objects.length ≤ 1 → e.rebuildTextureInfo = e) ∧
    (∀ t0 rest, e.texinfo_objects = t0 :: rest →
      (∀ t ∈ e.rebuildTextureInfo.texinfo_objects, t.texture = t0.texture) ∧
      e.rebuildTextureInfo.texinfo_objects.map TexInfo.texCoord =
        e.texinfo_objects.map TexInfo.texCoord ∧
      e.rebuildTextureInfo.texinfo_objects.length = e.texinfo_objects.length) := by
  constructor
  · intro hle
    unfold ImageEntry.rebuildTextureInfo
    rw [if_pos hle]
  · intro t0 rest hrep
    by_cases hlen : e.texinfo_objects.length ≤ 1
    · have heq : e.rebuildTextureInfo = e := by
        unfold ImageEntry.rebuildTextureInfo
        rw [if_pos hlen]
      have hrest : rest = [] := by
        rw [hrep] at hlen
        simpa using hlen
      subst hrest
      rw [heq]
      refine ⟨?_, rfl, rfl⟩
      intro t ht
      rw [hrep] at ht
      simp only [List.mem_singleton] at ht
      subst ht
      rfl
    · have heq2 : e.rebuildTextureInfo.texinfo_objects =
          t0 :: rest.map (fun t => { t with texture := t0.texture }) := by
        unfold ImageEntry.rebuildTextureInfo
        rw [if_neg hlen, hrep]
      refine ⟨?_, ?_, ?_⟩
      · intro t ht
        rw [heq2] at ht
        rcases List.mem_cons.1 ht with rfl | ht'
        · rfl
        · obtain ⟨u, _, huq⟩ := List.mem_map.1 ht'
          rw [← huq]
      · rw [heq2, hrep]
        simp only [List.map_cons]
        rw [map_texCoord_update]
      · rw [heq2, hrep]
        simp

/-- C4 witness: with two TextureInfo instances registered for the image,
both reference the first one's texture after the rebuild. -/
theorem c4_texture_dedup_witness :
    ((ImageEntry.mk [TexInfo.mk 5 0, TexInfo.mk 7 1]).texinfo_objects =
        TexInfo.mk 5 0 :: [TexInfo.mk 7 1]) ∧
    (∀ t ∈ (ImageEntry.mk
        [TexInfo.mk 5 0, TexInfo.mk 7 1]).rebuildTextureInfo.texinfo_objects,
      t.texture = (TexInfo.mk 5 0).texture) :=
  ⟨rfl,
   ((c4_texture_dedup (ImageEntry.mk [TexInfo.mk 5 0, TexInfo.mk 7 1])).2
     (TexInfo.mk 5 0) [TexInfo.mk 7 1] rfl).1⟩

/-- C5: on the failing input (`asset.version` "1.0", one scene), the
promise-based `Context.load` records the version rejection first — the
load fails with the version error — but it does not abort: `_loadScenes`
still constructs the scene (count 1) and a later resolve attempt is even
made, contradicting the claim that no scene parsing is performed. -/
theorem c5_version_reject_does_not_abort :
    contextLoad { version := some ['1', '.', '0'], scenes := [0], scene := none } =
      ([SettleAttempt.rejectVersionError, SettleAttempt.resolveContent [0] (-1)], 1) := by
  decide

/-- C6: the scene chosen by `glTFLoader._load_scene` is governed by the
effective index (`opts.index`, else the body's `scene`, else 0): out of
`[0, scenes.length)` it errors, otherwise it returns the scene at the
effective index. -/
theorem c6_scene_index_selection (scenes : List Nat) (gscene optsIndex : Option Int) :
    ((effectiveSceneIndex gscene optsIndex < 0 ∨
        (scenes.length : Int) ≤ effectiveSceneIndex gscene optsIndex) →
      load_scene scenes gscene optsIndex = Except.error "glTF scene does not exist") ∧
    ∀ (h1 : 0 ≤ effectiveSceneIndex gscene optsIndex)
      (h2 : effectiveSceneIndex gscene optsIndex < (scenes.length : Int)),
      load_scene scenes gscene optsIndex =
        Except.ok (scenes.get ⟨(effectiveSceneIndex gscene optsIndex).toNat, by omega⟩) := by
  have hbridge : load_scene scenes gscene optsIndex =
      if h : 0 ≤ effectiveSceneIndex gscene optsIndex ∧
          effectiveSceneIndex gscene optsIndex < (scenes.length : Int) then
        Except.ok (scenes.get ⟨(effectiveSceneIndex gscene optsIndex).toNat, by omega⟩)
      else Except.error "glTF scene does not exist" := rfl
  constructor
  · intro hout
    have hnc : ¬(0 ≤ effectiveSceneIndex gscene optsIndex ∧
        effectiveSceneIndex gscene optsIndex < (scenes.length : Int)) := by
      rintro ⟨hc1, hc2⟩
      rcases hout with h | h <;> omega
    rw [hbridge, dif_neg hnc]
  · intro h1 h2
    rw [hbridge, dif_pos ⟨h1, h2⟩]

/-- C6 witness: with neither `opts.index` nor a body `scene`, index 0 is
effective and the first scene is returned. -/
theorem c6_scene_index_selection_witness :
    ((0 : Int) ≤ effectiveSceneIndex none none ∧
      effectiveSceneIndex none none < ((2 : Nat) : Int)) ∧
    load_scene [10, 20] none none = Except.ok 10 := by
  refine ⟨by decide, ?_⟩
  have h := (c6_scene_index_selection [10, 20] none none).2 (by decide) (by decide)
  simpa using h

/-- C7: `solveResourceUri` returns the candidate unchanged exactly on the
`^data:` and `^[a-z][-+.0-9a-z]*://` matches (characterized by explicit
decompositions of the candidate), and otherwise returns the base URI
truncated just after its final slash (empty when the base has no slash)
concatenated with the candidate. -/
theorem c7_solve_resource_uri (base uri : List Char) :
    (matchDataUri uri = true ↔ ∃ t, uri = 'd' :: 'a' :: 't' :: 'a' :: ':' :: t) ∧
    (matchAbsUri uri = true ↔
      ∃ c run t, uri = c :: (run ++ ':' :: '/' :: '/' :: t) ∧ isLowerAlpha c = true ∧
        ∀ x ∈ run, isSchemeChar x = true) ∧
    ((matchDataUri uri || matchAbsUri uri) = true → solveResourceUri base uri = uri) ∧
    ((matchDataUri uri || matchAbsUri uri) = false →
      ∃ p t, base = p ++ t ∧ (∀ x ∈ t, x ≠ '/') ∧
        (p = [] ∨ p.getLast? = some '/') ∧
        (('/' ∉ base) → p = []) ∧
        solveResourceUri base uri = p ++ uri) := by
  refine ⟨matchDataUri_iff uri, matchAbsUri_iff uri, ?_, ?_⟩
  · intro h
    unfold solveResourceUri
    rw [if_pos h]
  · intro h
    obtain ⟨t, ht, hslash, hlast⟩ := keepThroughLastSlash_spec base
    refine ⟨keepThroughLastSlash base, t, ht, hslash, hlast, ?_, ?_⟩
    · intro hnb
      rcases hlast with hp | hp
      · exact hp
      · exfalso
        have hx : '/' ∈ (keepThroughLastSlash base).getLast? := Option.mem_def.2 hp
        obtain ⟨hne', hlx⟩ := List.mem_getLast?_eq_getLast hx
        have hmem : '/' ∈ keepThroughLastSlash base := hlx ▸ List.getLast_mem hne'
        exact hnb (ht ▸ List.mem_append_left _ hmem)
    · unfold solveResourceUri
      rw [if_neg (by simp [h])]

/-- C7 witness: a relative URI against a base with a directory prefix is
resolved by keeping the base up to its last slash. -/
theorem c7_solve_resource_uri_witness :
    ((matchDataUri ['f', '.', 'b', 'i', 'n'] ||
        matchAbsUri ['f', '.', 'b', 'i', 'n']) = false) ∧
    (∃ p t, ['d', 'i', 'r', '/', 's', '.', 'x'] = p ++ t ∧ (∀ x ∈ t, x ≠ '/') ∧
      (p = [] ∨ p.getLast? = some '/') ∧
      (('/' ∉ ['d', 'i', 'r', '/', 's', '.', 'x']) → p = []) ∧
      solveResourceUri ['d', 'i', 'r', '/', 's', '.', 'x'] ['f', '.', 'b', 'i', 'n'] =
        p ++ ['f', '.', 'b', 'i', 'n']) :=
  ⟨by decide,
   (c7_solve_resource_uri ['d', 'i', 'r', '/', 's', '.', 'x']
     ['f', '.', 'b', 'i', 'n']).2.2.2 (by decide)⟩

/-- C8: for a primitive with a non-empty attribute map, the vertex count
passed to the mesh initializer is the minimum of the `count` fields of its
attribute accessors. -/
theorem c8_vertex_count_min (p : GPrim) (hne : p.attributes ≠ []) :
    ∃ m : Nat, (createMeshInit p).numVertices = natTop m ∧
      m ∈ p.attributes.map (fun kv => kv.2.count) ∧
      ∀ c ∈ p.attributes.map (fun kv => kv.2.count), m ≤ c := by
  have hl : p.attributes.map (fun kv => kv.2.count) ≠ [] := by
    intro h
    exact hne (List.map_eq_nil_iff.1 h)
  obtain ⟨m, hm, hmem, hmin⟩ := foldr_min_spec _ hl
  refine ⟨m, ?_, hmem, hmin⟩
  show calcNumVertices p = natTop m
  unfold calcNumVertices
  have hmap : p.attributes.map (fun kv => natTop kv.2.count) =
      (p.attributes.map (fun kv => kv.2.count)).map natTop := by
    rw [List.map_map]
    rfl
  rw [hmap, foldl_min_top_eq, hm]
  exact min_eq_right le_top

/-- C8 witness: over two attributes with counts 2 and 1, the initializer
receives vertex count 1. -/
theorem c8_vertex_count_min_witness :
    (GPrim.mk [("POSITION", accSample16), ("NORMAL", accSample16b)] 4).attributes ≠ [] ∧
    ∃ m : Nat,
      (createMeshInit
        (GPrim.mk [("POSITION", accSample16), ("NORMAL", accSample16b)] 4)).numVertices =
          natTop m ∧
      m ∈ (GPrim.mk [("POSITION", accSample16),
            ("NORMAL", accSample16b)] 4).attributes.map (fun kv => kv.2.count) ∧
      ∀ c ∈ (GPrim.mk [("POSITION", accSample16),
            ("NORMAL", accSample16b)] 4).attributes.map (fun kv => kv.2.count), m ≤ c :=
  ⟨by decide,
   c8_vertex_count_min (GPrim.mk [("POSITION", accSample16), ("NORMAL", accSample16b)] 4)
     (by decide)⟩

/-- C9: `Context.addAccessor` with a usage other than "ATTRIBUTE" and
"INDEX" falls through the switch: it raises no error and returns the
context unchanged, so every buffer entry's accessor lists are exactly as
before. -/
theorem c9_add_accessor_other_usage (ctx : ContextB) (a : Accessor) (usage : String)
    (h1 : usage ≠ "ATTRIBUTE") (h2 : usage ≠ "INDEX") :
    ctx.addAccessor a usage = Except.ok ctx := by
  unfold ContextB.addAccessor
  split
  · simp_all
  · simp_all
  · rfl

/-- C9 witness: usage "NORMAL" leaves a context untouched. -/
theorem c9_add_accessor_other_usage_witness :
    (("NORMAL" : String) ≠ "ATTRIBUTE" ∧ ("NORMAL" : String) ≠ "INDEX") ∧
    ContextB.addAccessor (ContextB.mk [some entrySample]) accSample16 "NORMAL" =
      Except.ok (ContextB.mk [some entrySample]) :=
  ⟨⟨by decide, by decide⟩,
   c9_add_accessor_other_usage (ContextB.mk [some entrySample]) accSample16 "NORMAL"
     (by decide) (by decide)⟩

/-- C10: for a primitive with an empty attribute map, the vertex-count
computation raises no error and yields `Infinity` (the minimum of no
numbers), and that value is what the mesh initializer receives. -/
theorem c10_empty_attributes_infinity (p : GPrim) (he : p.attributes = []) :
    (createMeshInit p).numVertices = ⊤ := by
  show calcNumVertices p = ⊤
  unfold calcNumVertices
  rw [he]
  rfl

/-- C10 witness: the empty attribute map yields vertex count `⊤`. -/
theorem c10_empty_attributes_infinity_witness :
    (GPrim.mk [] 4).attributes = [] ∧ (createMeshInit (GPrim.mk [] 4)).numVertices = ⊤ :=
  ⟨rfl, c10_empty_attributes_infinity (GPrim.mk [] 4) rfl⟩

end Mapray
